import Mathlib

/-!
Shallow embedding of the shape-algebra and manifold-unwrapping utilities of
geoopt (file geoopt/utils.py), together with theorems settling claims about
their specification.

Conventions of the embedding:
- Python integers become Lean `Int` (or `Nat` where the source value is a
  tensor size, which is non-negative).
- The Python modulo operator on integers is floored modulo, which on `Int`
  is exactly `Int.fmod`.
- Code that can raise becomes `Except String`; the error string stands for
  the exception raised by the source.
-/

namespace Geoopt

/-! ### DimensionIndexer: idx2sign -/

/-- Embedding of `idx2sign(idx, dim, neg)` from geoopt/utils.py:
if `neg` then (if `idx < 0` return `idx` else return `(idx + 1) % -(dim + 1)`)
else return `idx % dim`, where `%` is Python (floored) modulo, i.e.
`Int.fmod`. -/
def idx2sign (idx dim : Int) (neg : Bool) : Int :=
  if neg then
    if idx < 0 then idx
    else Int.fmod (idx + 1) (-(dim + 1))
  else Int.fmod idx dim

/-- Embedding of `canonical_dims(dims, maxdim)`: map every index through
`idx2sign` with `neg=False`. -/
def canonical_dims (dims : List Int) (maxdim : Int) : List Int :=
  dims.map (fun idx => idx2sign idx maxdim false)

/-- Key modular-arithmetic fact about the source formula `(idx + 1) % -(dim + 1)`
for `0 ≤ idx < dim` under Python (floored) modulo: the result is `idx - dim`. -/
theorem fmod_succ_negSucc (i r : Int) (h0 : 0 ≤ i) (h1 : i < r) :
    Int.fmod (i + 1) (-(r + 1)) = i - r := by
  obtain ⟨m, rfl⟩ := Int.eq_ofNat_of_zero_le h0
  obtain ⟨n, rfl⟩ := Int.eq_ofNat_of_zero_le (le_trans h0 (le_of_lt h1))
  have hmn : m < n := by exact_mod_cast h1
  have e1 : ((m : Int) + 1) = Int.ofNat (m + 1) := by
    simp [Int.ofNat_add]
  have e2 : (-((n : Int) + 1)) = Int.negSucc n := by
    rw [Int.negSucc_eq]
  rw [e1, e2]
  have e3 : Int.fmod (Int.ofNat (m + 1)) (Int.negSucc n) =
      Int.subNatNat (m % (n + 1)) n := rfl
  rw [e3, Nat.mod_eq_of_lt (Nat.lt_succ_of_lt hmn), Int.subNatNat_eq_coe]

/-- For a positive modulus, Python modulo agrees with Euclidean modulo. -/
theorem fmod_pos_eq_emod (a b : Int) (hb : 0 < b) : Int.fmod a b = a % b :=
  Int.fmod_eq_emod a (le_of_lt hb)

/-- Claim C4: round-trip consistency of the two sign conventions: for every
positive rank `r` and every valid axis index `i ∈ [-r, r-1]`,
`idx2sign (idx2sign i r true) r false = idx2sign i r false`. -/
theorem claim_C4 (i r : Int) (hr : 0 < r) (hlo : -r ≤ i) (hhi : i ≤ r - 1) :
    idx2sign (idx2sign i r true) r false = idx2sign i r false := by
  by_cases hneg : i < 0
  · simp [idx2sign, hneg]
  · have h0 : 0 ≤ i := le_of_not_lt hneg
    have h1 : i < r := by omega
    have hinner : idx2sign i r true = i - r := by
      simp only [idx2sign, if_pos rfl, if_neg hneg]
      exact fmod_succ_negSucc i r h0 h1
    rw [hinner]
    simp only [idx2sign, Bool.false_eq_true, if_false]
    rw [fmod_pos_eq_emod _ _ hr, fmod_pos_eq_emod _ _ hr]
    have : (i - r) % r = (i + r * (-1)) % r := by ring_nf
    rw [this, Int.add_mul_emod_self_left]

/-- Witness for C4 at `i = 1`, `r = 3`. -/
theorem claim_C4_witness :
    (0 : Int) < 3 ∧ (-3 : Int) ≤ 1 ∧ (1 : Int) ≤ 3 - 1 ∧
      idx2sign (idx2sign 1 3 true) 3 false = idx2sign 1 3 false :=
  ⟨by decide, by decide, by decide, claim_C4 1 3 (by decide) (by decide) (by decide)⟩

/-- Claim C5: for every positive rank `r`, `idx2sign idx r true` returns
`idx` unchanged when `idx < 0`; for `0 ≤ idx < r` it returns
`(idx + 1) % -(r + 1)` which equals `idx - r`, lies in `[-r, -1]`, refers to
the same physical axis (canonicalizing it with `neg=false` gives back `idx`),
and is the unique index in `[-r, -1]` doing so; for rank 3 it maps 0 to -3,
1 to -2 and 2 to -1. -/
theorem claim_C5 :
    (∀ r : Int, 0 < r →
      (∀ idx : Int, idx < 0 → idx2sign idx r true = idx) ∧
      (∀ idx : Int, 0 ≤ idx → idx < r →
        idx2sign idx r true = Int.fmod (idx + 1) (-(r + 1)) ∧
        idx2sign idx r true = idx - r ∧
        -r ≤ idx - r ∧ idx - r ≤ -1 ∧
        idx2sign (idx - r) r false = idx ∧
        (∀ j : Int, -r ≤ j → j ≤ -1 → idx2sign j r false = idx → j = idx - r))) ∧
    idx2sign 0 3 true = -3 ∧ idx2sign 1 3 true = -2 ∧ idx2sign 2 3 true = -1 := by
  refine ⟨fun r hr => ⟨fun idx hidx => by simp [idx2sign, hidx], ?_⟩, by decide, by decide, by decide⟩
  intro idx h0 h1
  have hneg : ¬ idx < 0 := not_lt.mpr h0
  have hval : idx2sign idx r true = idx - r := by
    simp only [idx2sign, if_pos rfl, if_neg hneg]
    exact fmod_succ_negSucc idx r h0 h1
  have hemod : ∀ j : Int, -r ≤ j → j ≤ -1 → idx2sign j r false = j + r := by
    intro j hj1 hj2
    simp only [idx2sign, Bool.false_eq_true, if_false]
    rw [fmod_pos_eq_emod _ _ hr]
    have e : j % r = (j + r) % r := by
      have : (j + r) % r = (j + r * 1) % r := by ring_nf
      rw [this, Int.add_mul_emod_self_left]
    rw [e, Int.emod_eq_of_lt (by omega) (by omega)]
  refine ⟨by simp [idx2sign, hneg], hval, by omega, by omega, ?_, ?_⟩
  · rw [hemod (idx - r) (by omega) (by omega)]
    omega
  · intro j hj1 hj2 hj3
    rw [hemod j hj1 hj2] at hj3
    omega

/-- Witness for C5 (the statement is a conjunction whose first component is
universally quantified); instantiates it at rank 3 and index 1. -/
theorem claim_C5_witness :
    idx2sign 1 3 true = 1 - 3 ∧ idx2sign (1 - 3) 3 false = 1 :=
  ⟨(claim_C5.1 3 (by decide)).2 1 (by decide) (by decide) |>.2.1,
   (claim_C5.1 3 (by decide)).2 1 (by decide) (by decide) |>.2.2.2.2.1⟩

/-! ### ShapeBroadcaster: broadcast_shapes -/

/-- The inner `for d in dims` loop of `broadcast_shapes`, starting from the
running value `dim`.  Loop body from the source: if
`dim != 1 and d != 1 and d != dim` raise (a `ValueError` in the source),
elif `d > dim` then `dim = d`. -/
def bcastFold (dim : Nat) : List Nat → Except String Nat
  | [] => .ok dim
  | d :: ds =>
    if dim ≠ 1 ∧ d ≠ 1 ∧ d ≠ dim then .error "Shapes cant be broadcasted"
    else bcastFold (if dim < d then d else dim) ds

/-- The outer `for dims in zip_longest(...)` loop of `broadcast_shapes`:
process the aligned columns in order, collecting the per-column results. -/
def bcastCols : List (List Nat) → Except String (List Nat)
  | [] => .ok []
  | c :: cs =>
    match bcastFold 1 c with
    | .error e => .error e
    | .ok d =>
      match bcastCols cs with
      | .error e => .error e
      | .ok ds => .ok (d :: ds)

/-- Column `k` produced by `zip_longest(*map(reversed, shapes), fillvalue=1)`:
the element `k` positions from the end of each shape, or the fill value 1 for
shapes that are too short. -/
def bcastCol (shapes : List (List Nat)) (k : Nat) : List Nat :=
  shapes.map (fun s => s.reverse.getD k 1)

/-- Embedding of `broadcast_shapes(*shapes)`: walk the right-aligned columns
(`zip_longest` runs for `max` of the lengths many steps), fold each column
with the inner loop, and reverse the collected results back to
leading-to-trailing order. -/
def broadcast_shapes (shapes : List (List Nat)) : Except String (List Nat) :=
  let n := (shapes.map List.length).foldl Nat.max 0
  match bcastCols ((List.range n).map (bcastCol shapes)) with
  | .ok result => .ok result.reverse
  | .error e => .error e

/-- When the inner loop succeeds, its value is the `max`-fold of the sizes
it walked (each non-raising step replaces `dim` by `max dim d`). -/
theorem bcastFold_ok_eq (ds : List Nat) :
    ∀ dim m, bcastFold dim ds = .ok m → m = ds.foldl Nat.max dim := by
  induction ds with
  | nil => intro dim m h; cases h; rfl
  | cons d ds ih =>
    intro dim m h
    rw [bcastFold] at h
    split at h
    · cases h
    · rw [List.foldl_cons]
      have hmax : Nat.max dim d = if dim < d then d else dim := by
        have h1 : Nat.max dim d = max dim d := rfl
        rw [h1, max_def]
        split <;> split <;> omega
      rw [hmax]
      exact ih _ m h

/-- When the outer loop succeeds, the collected list is the per-column
`max`-fold of every column. -/
theorem bcastCols_ok_eq (cols : List (List Nat)) :
    ∀ r, bcastCols cols = .ok r → r = cols.map (fun c => c.foldl Nat.max 1) := by
  induction cols with
  | nil => intro r h; cases h; rfl
  | cons c cs ih =>
    intro r h
    rw [bcastCols] at h
    cases hc : bcastFold 1 c with
    | error e => rw [hc] at h; cases h
    | ok d =>
      rw [hc] at h
      cases hcs : bcastCols cs with
      | error e => rw [hcs] at h; cases h
      | ok ds =>
        rw [hcs] at h
        cases h
        rw [List.map_cons, bcastFold_ok_eq c 1 d hc, ih ds hcs]

/-- If some column makes the inner loop raise, the outer loop raises. -/
theorem bcastCols_error_of_mem (cols : List (List Nat)) (c : List Nat)
    (hmem : c ∈ cols) (e : String) (herr : bcastFold 1 c = .error e) :
    ∃ e2, bcastCols cols = .error e2 := by
  induction cols with
  | nil => cases hmem
  | cons c0 cs ih =>
    rw [bcastCols]
    cases hc0 : bcastFold 1 c0 with
    | error e0 => exact ⟨e0, rfl⟩
    | ok d =>
      rcases List.mem_cons.mp hmem with hceq | hctail
      · subst hceq; rw [hc0] at herr; cases herr
      · obtain ⟨e2, he2⟩ := ih hctail
        rw [he2]
        exact ⟨e2, rfl⟩

/-- Success-value characterization of `broadcast_shapes`: a returned shape is
the reversed list of per-column `max`-folds. -/
theorem broadcast_shapes_ok_eq (shapes : List (List Nat)) (r : List Nat)
    (h : broadcast_shapes shapes = .ok r) :
    r = ((List.range ((shapes.map List.length).foldl Nat.max 0)).map
          (fun k => (bcastCol shapes k).foldl Nat.max 1)).reverse := by
  rw [broadcast_shapes] at h
  cases hc : bcastCols ((List.range ((shapes.map List.length).foldl Nat.max 0)).map
      (bcastCol shapes)) with
  | error e => rw [hc] at h; cases h
  | ok res =>
    rw [hc] at h
    cases h
    rw [bcastCols_ok_eq _ res hc, List.map_map]
    rfl

/-- Claim C1, counterexample: passing the size-0 shape first, `broadcast_shapes`
does not fail on the pair `(0,)`, `(2,)`; it returns `(2,)`. -/
theorem claim_C1_counterexample : broadcast_shapes [[0], [2]] = .ok [2] := rfl

/-- Claim C1 as amended: if the shape contributing the size `d > 1` at a
right-aligned position is passed before the shape contributing size 0 there,
`broadcast_shapes` fails. -/
theorem claim_C1 (s1 s2 : List Nat) (k d : Nat) (hd : 1 < d)
    (h1 : s1.reverse.getD k 1 = d) (h2 : s2.reverse.getD k 1 = 0) :
    ∃ e, broadcast_shapes [s1, s2] = .error e := by
  have hk1 : k < s1.length := by
    by_contra hk
    rw [List.getD_eq_default _ _ (by simpa using le_of_not_lt hk)] at h1
    omega
  have hkn : k < ([s1, s2].map List.length).foldl Nat.max 0 := by
    simp only [List.map_cons, List.map_nil, List.foldl_cons, List.foldl_nil]
    exact lt_of_lt_of_le hk1 (le_trans (Nat.le_max_right 0 _) (Nat.le_max_left _ _))
  have hcolmem : bcastCol [s1, s2] k ∈
      (List.range (([s1, s2].map List.length).foldl Nat.max 0)).map (bcastCol [s1, s2]) :=
    List.mem_map_of_mem _ (List.mem_range.mpr hkn)
  have hcol : bcastCol [s1, s2] k = [d, 0] := by
    simp only [bcastCol, List.map_cons, List.map_nil]
    rw [h1, h2]
  have hfold : bcastFold 1 [d, 0] = .error "Shapes cant be broadcasted" := by
    rw [bcastFold, if_neg (by omega), if_pos (by omega), bcastFold, if_pos (by omega)]
  rw [hcol] at hcolmem
  obtain ⟨e2, he2⟩ := bcastCols_error_of_mem _ [d, 0] hcolmem _ hfold
  refine ⟨e2, ?_⟩
  rw [broadcast_shapes, he2]

/-- Witness for C1 (amended) at shapes `(2,)` and `(0,)`. -/
theorem claim_C1_witness :
    1 < 2 ∧ ([(2 : Nat)].reverse.getD 0 1 = 2) ∧ ([(0 : Nat)].reverse.getD 0 1 = 0) ∧
      ∃ e, broadcast_shapes [[2], [0]] = .error e :=
  ⟨by decide, by decide, by decide, claim_C1 [2] [0] 0 2 (by decide) (by decide) (by decide)⟩

/-- Claim C2, counterexample: swapping the two shapes `(2,)` and `(0,)`
changes the outcome of `broadcast_shapes` from an error to a result. -/
theorem claim_C2_counterexample :
    broadcast_shapes [[2], [0]] = .error "Shapes cant be broadcasted" ∧
      broadcast_shapes [[0], [2]] = .ok [2] :=
  ⟨rfl, rfl⟩

/-- Claim C2 as amended: the result of `broadcast_shapes` is invariant under
permutation of the input shapes whenever both orderings succeed (whether it
fails, however, can depend on the order). -/
theorem claim_C2 (shapes1 shapes2 : List (List Nat)) (r1 r2 : List Nat)
    (hperm : shapes1.Perm shapes2)
    (h1 : broadcast_shapes shapes1 = .ok r1)
    (h2 : broadcast_shapes shapes2 = .ok r2) : r1 = r2 := by
  have hmaxcomm : ∀ (l1 l2 : List Nat), l1.Perm l2 →
      ∀ a, l1.foldl Nat.max a = l2.foldl Nat.max a := by
    intro l1 l2 hp a
    exact hp.foldl_eq' (fun x _ y _ z => Nat.max_right_comm z x y) a
  have hn : (shapes1.map List.length).foldl Nat.max 0 =
      (shapes2.map List.length).foldl Nat.max 0 :=
    hmaxcomm _ _ (hperm.map List.length) 0
  have hcols : ∀ k, (bcastCol shapes1 k).foldl Nat.max 1 =
      (bcastCol shapes2 k).foldl Nat.max 1 := by
    intro k
    exact hmaxcomm _ _ (hperm.map _) 1
  rw [broadcast_shapes_ok_eq _ _ h1, broadcast_shapes_ok_eq _ _ h2, hn]
  congr 1
  exact List.map_congr_left (fun k _ => hcols k)

/-- Witness for C2 (amended) on the permuted pairs `((2,),(3,1))` and
`((3,1),(2,))`. -/
theorem claim_C2_witness :
    List.Perm [[2], [3, 1]] [[3, 1], [(2 : Nat)]] ∧
      broadcast_shapes [[2], [3, 1]] = .ok [3, 2] ∧
      broadcast_shapes [[3, 1], [2]] = .ok [3, 2] ∧
      ([3, 2] : List Nat) = [3, 2] :=
  ⟨by decide, rfl, rfl,
   claim_C2 [[2], [3, 1]] [[3, 1], [2]] [3, 2] [3, 2] (by decide) rfl rfl⟩

/-- The `max`-fold of a list of sizes is at least its starting value. -/
theorem le_foldl_max (ds : List Nat) : ∀ a : Nat, a ≤ ds.foldl Nat.max a := by
  induction ds with
  | nil => intro a; exact Nat.le_refl a
  | cons d ds ih =>
    intro a
    rw [List.foldl_cons]
    exact le_trans (Nat.le_max_left a d) (ih (Nat.max a d))

/-- Claim C9: every axis size of a successfully returned broadcast shape is
at least 1 (a size-0 input axis never survives to the output), and in
particular `broadcast_shapes((0,))` returns `(1,)`. -/
theorem claim_C9 :
    (∀ (shapes : List (List Nat)) (r : List Nat),
      broadcast_shapes shapes = .ok r → ∀ x ∈ r, 1 ≤ x) ∧
    broadcast_shapes [[0]] = .ok [1] := by
  refine ⟨fun shapes r h x hx => ?_, rfl⟩
  rw [broadcast_shapes_ok_eq _ _ h] at hx
  rw [List.mem_reverse, List.mem_map] at hx
  obtain ⟨k, _, hk⟩ := hx
  rw [← hk]
  exact le_foldl_max _ 1

/-- Witness for C9 (the first component carries hypotheses); instantiates it
at the single shape `(3,)`. -/
theorem claim_C9_witness :
    broadcast_shapes [[3]] = .ok [3] ∧ (1 : Nat) ≤ 3 :=
  ⟨rfl, claim_C9.1 [[3]] [3] rfl 3 (by decide)⟩

/-! ### DimensionSetResolver: reduce_dim and the tuple helpers it uses -/

/-- A Python value as handled by the tuple helpers: an integer or a tuple of
such values. -/
inductive PyVal where
  | int (n : Int)
  | tup (l : List PyVal)

/-- Embedding of `strip_tuple(tup)`: return the sole element of a 1-tuple,
otherwise the tuple itself. -/
def strip_tuple (t : List PyVal) : PyVal :=
  match t with
  | [x] => x
  | t => .tup t

/-- Embedding of `make_tuple(obj)`: wrap a non-tuple in a 1-tuple, leave a
tuple unchanged. -/
def make_tuple (obj : PyVal) : List PyVal :=
  match obj with
  | .tup t => t
  | x => [x]

/-- Embedding of `size2shape(*size)`: the variadic argument tuple `size` is
the list argument here. -/
def size2shape (size : List PyVal) : List PyVal :=
  make_tuple (strip_tuple size)

/-- Embedding of Python `del lst[dim]` on a list: a negative `dim` counts
from the end; an out-of-range `dim` raises `IndexError`. -/
def pyDelAt (l : List PyVal) (dim : Int) : Except String (List PyVal) :=
  let i : Int := if dim < 0 then dim + l.length else dim
  if 0 ≤ i ∧ i < l.length then .ok (l.eraseIdx i.toNat)
  else .error "IndexError"

/-- Embedding of `reduce_dim(maxdim, reducedim, dim)`: when `reducedim` is
`None`, return `list(range(maxdim))` with the entry at `dim` deleted;
otherwise return `size2shape(reducedim)` (note: `size2shape`, not
`canonical_dims`) -- `size` there is the 1-tuple `(reducedim,)`. -/
def reduce_dim (maxdim : Nat) (reducedim : Option PyVal) (dim : Int) :
    Except String (List PyVal) :=
  match reducedim with
  | none => pyDelAt ((List.range maxdim).map (fun k => PyVal.int (k : Int))) dim
  | some rd => .ok (size2shape [rd])

/-- Claim C3, counterexample: with rank 3 and the explicit axis list `(-1,)`,
`reduce_dim` returns `(-1,)` unchanged, whereas resolving through the
DimensionIndexer (`canonical_dims`) would give `rank - 1 = 2`. -/
theorem claim_C3_counterexample :
    reduce_dim 3 (some (.tup [.int (-1)])) 0 = .ok [.int (-1)] ∧
      canonical_dims [-1] 3 = [2] ∧
      [PyVal.int (-1)] ≠ [PyVal.int 2] := by
  refine ⟨rfl, by decide, fun h => ?_⟩
  injection h with h1 h2
  injection h1 with h3
  exact absurd h3 (by decide)

/-- Claim C3 as amended: for every rank, every non-None explicit axis tuple
and every keepAxis, `reduce_dim` returns the explicit axes unchanged (the
tuple massaged through `size2shape` only); no element is canonicalized, so a
negative axis such as -1 comes back as -1, not as `rank - 1`. -/
theorem claim_C3 (maxdim : Nat) (axes : List PyVal) (dim : Int) :
    reduce_dim maxdim (some (.tup axes)) dim = .ok axes := rfl

/-! ### ManifoldWrapperUnwinder: canonical_manifold and ismanifold -/

/-- Model of the Python objects seen by `ismanifold` and `canonical_manifold`:
an instance of a concrete manifold class `c` (drawn from a type `C` of
concrete manifold classes), a `geoopt.Scaled` wrapper holding a base object,
or any non-manifold object. -/
inductive PyObj (C : Type) where
  | manifold (c : C)
  | scaled (base : PyObj C)
  | other
deriving DecidableEq

/-- Model of the classes appearing in `ismanifold`: the abstract base class
`geoopt.manifolds.Manifold`, the wrapper class `geoopt.Scaled`, and the
concrete manifold classes. -/
inductive MCls (C : Type) where
  | manifoldBase
  | scaledCls
  | concrete (c : C)
deriving DecidableEq

/-- Model of Python `issubclass` on the classes above, parameterized by the
subclass relation `sub` among the concrete manifold classes.  Every class
here subclasses `geoopt.manifolds.Manifold`; `Scaled` and the concrete
classes are unrelated to each other. -/
def issubclass {C : Type} (sub : C → C → Bool) : MCls C → MCls C → Bool
  | _, .manifoldBase => true
  | .scaledCls, .scaledCls => true
  | .concrete c, .concrete c2 => sub c c2
  | _, _ => false

/-- Model of Python `isinstance`: the class of a concrete manifold instance
is its concrete class, the class of a wrapper is `Scaled`, and a non-manifold
object is an instance of none of the modelled classes. -/
def isinstance {C : Type} (sub : C → C → Bool) : PyObj C → MCls C → Bool
  | .manifold c, cls => issubclass sub (.concrete c) cls
  | .scaled _, cls => issubclass sub .scaledCls cls
  | .other, _ => false

/-- Embedding of `canonical_manifold(manifold)`: while the object is a
`Scaled` wrapper, replace it by its `base`; return the first non-wrapper
reached. -/
def canonical_manifold {C : Type} : PyObj C → PyObj C
  | .scaled base => canonical_manifold base
  | m => m

/-- Embedding of `ismanifold(instance, cls)`: raise a `TypeError` unless
`cls` subclasses `geoopt.manifolds.Manifold`; return `False` for objects that
are not manifold instances; otherwise strip all `Scaled` wrappers (the same
loop as `canonical_manifold`) and test `isinstance` against `cls`. -/
def ismanifold {C : Type} (sub : C → C → Bool) (inst : PyObj C) (cls : MCls C) :
    Except String Bool :=
  if issubclass sub cls .manifoldBase = false then
    .error "cls should be a subclass of geoopt.manifolds.Manifold"
  else if isinstance sub inst .manifoldBase = false then
    .ok false
  else
    .ok (isinstance sub (canonical_manifold inst) cls)

/-- A chain of `n` `Scaled` wrappers around a base object. -/
def wrapChain {C : Type} (n : Nat) (m : PyObj C) : PyObj C :=
  match n with
  | 0 => m
  | n + 1 => .scaled (wrapChain n m)

/-- Claim C6: `canonical_manifold` (total by structural recursion on the
acyclic wrapper chain) returns the terminal concrete manifold of a chain of
any length `n`, and is the identity on non-wrapped concrete manifolds. -/
theorem claim_C6 (C : Type) (n : Nat) (c : C) :
    canonical_manifold (wrapChain n (PyObj.manifold c)) = PyObj.manifold c ∧
      canonical_manifold (PyObj.manifold c) = PyObj.manifold c := by
  refine ⟨?_, rfl⟩
  induction n with
  | zero => rfl
  | succ n ih => rw [wrapChain, canonical_manifold, ih]

/-- Unwrapping never returns a wrapper. -/
theorem canonical_manifold_ne_scaled {C : Type} (m : PyObj C) (b : PyObj C) :
    canonical_manifold m ≠ PyObj.scaled b := by
  induction m with
  | manifold c => exact fun h => PyObj.noConfusion h
  | scaled base ih => rw [canonical_manifold]; exact ih
  | other => exact fun h => PyObj.noConfusion h

/-- Unwrapping is idempotent. -/
theorem canonical_manifold_idem {C : Type} (m : PyObj C) :
    canonical_manifold (canonical_manifold m) = canonical_manifold m := by
  induction m with
  | manifold c => rfl
  | scaled base ih => rw [canonical_manifold]; exact ih
  | other => rfl

/-- When `cls` subclasses the manifold base class, `ismanifold` never raises
and answers by `isinstance` on the unwrapped object. -/
theorem ismanifold_eq_isinstance_unwrapped {C : Type} (sub : C → C → Bool)
    (inst : PyObj C) (cls : MCls C)
    (hcls : issubclass sub cls .manifoldBase = true) :
    ismanifold sub inst cls = .ok (isinstance sub (canonical_manifold inst) cls) := by
  cases inst with
  | manifold c => rw [ismanifold, if_neg (by rw [hcls]; decide)]; rfl
  | scaled base => rw [ismanifold, if_neg (by rw [hcls]; decide)]; rfl
  | other => rw [ismanifold, if_neg (by rw [hcls]; decide)]; rfl

/-- Claim C7: capability checks are wrapper-transparent: for every object and
every class `cls` that subclasses the manifold base class, `ismanifold` gives
the same answer on the object and on its unwrapped form, at any wrapper
depth. -/
theorem claim_C7 (C : Type) (sub : C → C → Bool) (m : PyObj C) (cls : MCls C)
    (hcls : issubclass sub cls .manifoldBase = true) :
    ismanifold sub m cls = ismanifold sub (canonical_manifold m) cls := by
  rw [ismanifold_eq_isinstance_unwrapped sub m cls hcls,
    ismanifold_eq_isinstance_unwrapped sub (canonical_manifold m) cls hcls,
    canonical_manifold_idem]

/-- Witness for C7: concrete classes are the naturals with subclassing as
equality; the instance is a depth-1 wrapped manifold of class 0, checked
against class 0. -/
theorem claim_C7_witness :
    issubclass (fun a b : Nat => a == b) (MCls.concrete 0) .manifoldBase = true ∧
      ismanifold (fun a b : Nat => a == b) (PyObj.scaled (PyObj.manifold 0)) (MCls.concrete 0) =
        ismanifold (fun a b : Nat => a == b)
          (canonical_manifold (PyObj.scaled (PyObj.manifold 0))) (MCls.concrete 0) :=
  ⟨by decide, claim_C7 Nat (fun a b => a == b) (PyObj.scaled (PyObj.manifold 0))
    (MCls.concrete 0) (by decide)⟩

/-- Claim C10: checking any object against the wrapper class `Scaled` itself
returns `False`: all `Scaled` layers are stripped before the final
`isinstance`, and what remains is never a `Scaled` instance. -/
theorem claim_C10 (C : Type) (sub : C → C → Bool) (m : PyObj C) :
    ismanifold sub m MCls.scaledCls = .ok false := by
  have hcls : issubclass sub (MCls.scaledCls (C := C)) .manifoldBase = true := rfl
  cases m with
  | other => rfl
  | manifold c =>
    rw [ismanifold_eq_isinstance_unwrapped sub _ _ hcls]
    rfl
  | scaled base =>
    rw [ismanifold_eq_isinstance_unwrapped sub _ _ hcls]
    cases hc : canonical_manifold (PyObj.scaled base) with
    | manifold c => rw [isinstance]; rfl
    | scaled b => exact absurd hc (canonical_manifold_ne_scaled _ b)
    | other => rfl

/-! ### ShapeCollapser: drop_dims -/

/-- Model of a torch tensor as seen by `drop_dims`: its shape together with
its lookup function from multi-indices to values. -/
structure Tensor where
  shape : List Nat
  val : List Nat → Int

/-- Model of how torch indexing merges a result multi-index back into a full
multi-index of the original tensor: a `some i` slot (an integer index in the
slicing tuple) contributes `i`, a `none` slot (a `slice(None)`) consumes the
next entry of the result index. -/
def mergeIdx : List (Option Nat) → List Nat → List Nat
  | [], _ => []
  | some i :: rest, idx => i :: mergeIdx rest idx
  | none :: rest, j :: idx => j :: mergeIdx rest idx
  | none :: _, [] => []

/-- Model of torch basic indexing `tensor[slc]` for a tuple `slc` holding,
per axis, either an integer (`some i`: select index `i`, removing the axis)
or `slice(None)` (`none`: keep the axis in full). -/
def applySlice (t : Tensor) (slc : List (Option Nat)) : Tensor where
  shape := (t.shape.zip slc).filterMap (fun p =>
    match p.2 with
    | none => some p.1
    | some _ => none)
  val := fun idx => t.val (mergeIdx slc idx)

/-- Embedding of `drop_dims(tensor, dims)`: canonicalize `dims` against
`tensor.dim()`, build the slicing tuple with `0` at the canonicalized axes
and `slice(None)` elsewhere, and index with it. -/
def drop_dims (t : Tensor) (dims : List Int) : Tensor :=
  let cdims := canonical_dims dims (t.shape.length : Int)
  applySlice t ((List.range t.shape.length).map
    (fun (d : Nat) => if (d : Int) ∈ cdims then some 0 else none))

/-- Stated from the spec of `dropAxes`: the sizes of the axes kept (those
whose non-negative position, counted from `k`, is not in the canonical axis
set `S`), in order. -/
def specKeepSizes (S : List Int) : Nat → List Nat → List Nat
  | _, [] => []
  | k, sz :: ss =>
    if (k : Int) ∈ S then specKeepSizes S (k + 1) ss
    else sz :: specKeepSizes S (k + 1) ss

/-- Stated from the spec of `dropAxes`: the full multi-index addressed by a
result multi-index `idx`, walking the axis list `ds`: index 0 is selected
along every axis in the canonical set `S`, every other axis consumes the next
entry of `idx`. -/
def specFullIndex (S : List Int) : List Nat → List Nat → List Nat
  | [], _ => []
  | d :: ds, [] => if (d : Int) ∈ S then 0 :: specFullIndex S ds [] else []
  | d :: ds, i :: idx2 =>
    if (d : Int) ∈ S then 0 :: specFullIndex S ds (i :: idx2)
    else i :: specFullIndex S ds idx2

/-- The shape computed by the slicing tuple of `drop_dims` is the spec-side
list of kept sizes. -/
theorem filterMap_zip_range (S : List Int) :
    ∀ (s : List Nat) (k : Nat),
      ((s.zip ((List.range' k s.length).map
          (fun (d : Nat) => if (d : Int) ∈ S then some 0 else none))).filterMap
        (fun p => match p.2 with
          | none => some p.1
          | some _ => none))
      = specKeepSizes S k s := by
  intro s
  induction s with
  | nil => intro k; rfl
  | cons sz ss ih =>
    intro k
    rw [List.length_cons, List.range'_succ, List.map_cons, List.zip_cons_cons,
      List.filterMap_cons, specKeepSizes]
    by_cases hk : (k : Int) ∈ S
    · rw [if_pos hk, if_pos hk]
      exact ih (k + 1)
    · rw [if_neg hk, if_neg hk, ih (k + 1)]

/-- The index merging performed by the slicing tuple of `drop_dims` is the
spec-side full-index construction. -/
theorem mergeIdx_map_eq (S : List Int) :
    ∀ (ds : List Nat) (idx : List Nat),
      mergeIdx (ds.map (fun (d : Nat) => if (d : Int) ∈ S then some 0 else none)) idx
        = specFullIndex S ds idx := by
  intro ds
  induction ds with
  | nil => intro idx; rfl
  | cons d ds ih =>
    intro idx
    rw [List.map_cons]
    cases idx with
    | nil =>
      by_cases hd : (d : Int) ∈ S
      · rw [if_pos hd, mergeIdx, specFullIndex, if_pos hd, ih]
      · rw [if_neg hd, mergeIdx, specFullIndex, if_neg hd]
    | cons i idx2 =>
      by_cases hd : (d : Int) ∈ S
      · rw [if_pos hd, mergeIdx, specFullIndex, if_pos hd, ih]
      · rw [if_neg hd, mergeIdx, specFullIndex, if_neg hd, ih]

/-- Claim C8: `drop_dims` returns the view obtained by canonicalizing each
axis to non-negative form against the rank and then selecting index 0 along
every canonicalized axis, full range elsewhere: the result shape keeps
exactly the sizes of the non-dropped axes in order, the result value at any
multi-index is the source value at the spec-side full index, and on a tensor
of shape `(2,3,4)` with axes `{1}` the result has shape `(2,4)` with values
selecting index 0 along axis 1.  (The hypothesis records the domain on which
the source is defined: canonicalizing a non-empty axis collection needs a
positive rank, since Python `%` by zero raises.) -/
theorem claim_C8 (t : Tensor) (dims : List Int)
    (hdom : dims = [] ∨ 0 < t.shape.length) :
    (drop_dims t dims).shape =
        specKeepSizes (canonical_dims dims (t.shape.length : Int)) 0 t.shape ∧
    (∀ idx : List Nat, (drop_dims t dims).val idx =
        t.val (specFullIndex (canonical_dims dims (t.shape.length : Int))
          (List.range t.shape.length) idx)) ∧
    (∀ t2 : Tensor, t2.shape = [2, 3, 4] →
      (drop_dims t2 [1]).shape = [2, 4] ∧
      ∀ i k : Nat, (drop_dims t2 [1]).val [i, k] = t2.val [i, 0, k]) := by
  have hshape : ∀ (t2 : Tensor) (dims2 : List Int),
      (drop_dims t2 dims2).shape =
        specKeepSizes (canonical_dims dims2 (t2.shape.length : Int)) 0 t2.shape := by
    intro t2 dims2
    show ((t2.shape.zip ((List.range t2.shape.length).map _)).filterMap _) = _
    rw [List.range_eq_range']
    exact filterMap_zip_range _ t2.shape 0
  have hval : ∀ (t2 : Tensor) (dims2 : List Int) (idx : List Nat),
      (drop_dims t2 dims2).val idx =
        t2.val (specFullIndex (canonical_dims dims2 (t2.shape.length : Int))
          (List.range t2.shape.length) idx) := by
    intro t2 dims2 idx
    show t2.val (mergeIdx ((List.range t2.shape.length).map _) idx) = _
    rw [mergeIdx_map_eq]
  refine ⟨hshape t dims, hval t dims, fun t2 ht2 => ⟨?_, fun i k => ?_⟩⟩
  · rw [hshape t2 [1], ht2]
    decide
  · rw [hval t2 [1] [i, k], ht2]
    have hlen : ([2, 3, 4] : List Nat).length = 3 := rfl
    rw [hlen]
    have hfull : specFullIndex (canonical_dims [1] ((3 : Nat) : Int))
        (List.range 3) [i, k] = [i, 0, k] := by
      have hc : canonical_dims [1] ((3 : Nat) : Int) = [1] := by decide
      have hr : List.range 3 = [0, 1, 2] := by decide
      rw [hc, hr]
      rw [specFullIndex, if_neg (by decide), specFullIndex, if_pos (by decide),
        specFullIndex, if_neg (by decide), specFullIndex]
    rw [hfull]

/-- Witness for C8: a concrete tensor of shape `(2,3,4)` whose value at a
multi-index encodes the index digits. -/
theorem claim_C8_witness :
    ([1] = ([] : List Int) ∨ 0 <
      (Tensor.mk [2, 3, 4] (fun idx => (idx.foldl (fun a b => a * 10 + b) 0 : Nat))).shape.length) ∧
    (drop_dims (Tensor.mk [2, 3, 4]
        (fun idx => (idx.foldl (fun a b => a * 10 + b) 0 : Nat))) [1]).shape = [2, 4] ∧
    (drop_dims (Tensor.mk [2, 3, 4]
        (fun idx => (idx.foldl (fun a b => a * 10 + b) 0 : Nat))) [1]).val [1, 2] =
      (Tensor.mk [2, 3, 4]
        (fun idx => (idx.foldl (fun a b => a * 10 + b) 0 : Nat))).val [1, 0, 2] := by
  have h := claim_C8 (Tensor.mk [2, 3, 4]
    (fun idx => (idx.foldl (fun a b => a * 10 + b) 0 : Nat))) [1] (Or.inr (by decide))
  exact ⟨Or.inr (by decide), (h.2.2 _ rfl).1, (h.2.2 _ rfl).2 1 2⟩

end Geoopt
